import Mathlib

/-!
Shallow embedding of `fast_engset/_fast_engset.py` (the fast-engset
package) in Lean 4, together with theorems checking the repository's
specification against the code.

Modelling conventions:

* Python 64-bit floats are modelled as exact rationals (`ℚ`).  The claims
  settled here concern control flow, statuses, iteration accounting and
  bracket invariants, which are arithmetic-generic; float rounding is out
  of scope.
* Python `for n_iters in range(1, max_n_iters + 1)` loops are modelled by
  structural recursion on the number of remaining iterations, carrying the
  running iteration index `i` (so `rem + i = max_n_iters + 1` at entry).
* A Python local that may be read before any assignment (`value=n_sources_`
  on a path where the loop body never ran) is carried as an `Option`;
  reading `none` models the `UnboundLocalError` the interpreter raises.
* The two `while True:` doubling pre-phases have no syntactic bound in the
  source; they are modelled with an explicit `fuel` argument, and running
  out of fuel is reported by a dedicated constructor distinct from any
  behaviour of the program.
-/

set_option maxRecDepth 10000

set_option maxHeartbeats 4000000

/-- Status codes (`Status` enum in the source). -/
inductive Status where
  | OK
  | UNBOUNDED
  | MAX_N_ITERS_REACHED
  | UNSTABLE
deriving DecidableEq

/-- Computation result (`_Result` named tuple in the source).  `value` is a
`Union[float, int]` in Python; both variants are carried as `ℚ` here. -/
structure Result where
  n_iters : ℕ
  status : Status
  value : ℚ
deriving DecidableEq

/-- Algorithm selector (`Algorithm` enum in the source). -/
inductive Algorithm where
  | BISECT
  | FIXEDP
  | NEWTON
deriving DecidableEq

/-- Outcome of running one of the internal solvers.  `ret r` is a normal
return; `unboundLocal` models Python raising `UnboundLocalError` (a local
read on a path where it was never assigned); `fuelOut` is a modelling
artifact only: the fuel supplied for an unbounded `while True:` pre-phase
ran out (it corresponds to no behaviour of the program). -/
inductive Run where
  | ret (r : Result)
  | unboundLocal
  | fuelOut
deriving DecidableEq

/-- Python's `sys.maxsize` on a 64-bit platform, used as the `UNBOUNDED`
sentinel value. -/
def sysMaxsize : ℚ := 9223372036854775807

/-- The loop of `_hyp2f1_coefs`: produces the coefficients `c_1, …, c_f`
given the descending counter `f`, the ascending counter `g` and the
previously computed coefficient `prev` (`c[k] = f / g * c[k-1]`; `g` is
incremented only when the loop continues). -/
def coefsFrom : ℕ → ℤ → ℚ → List ℚ
  | 0, _, _ => []
  | f + 1, g, prev =>
      let c : ℚ := ((f : ℚ) + 1) / (g : ℚ) * prev
      c :: coefsFrom f (g + 1) c

/-- `_hyp2f1_coefs(param1, param2)`: coefficients of
`f(z) = hyp2f1(1, -param1, param2 - param1, z)`; the list has length
`param1 + 1` with leading entry `1`.  (`f := param1`,
`g := param2 - param1`.) -/
def hyp2f1Coefs (param1 param2 : ℕ) : List ℚ :=
  1 :: coefsFrom param1 ((param2 : ℤ) - (param1 : ℤ)) 1

/-- The summation loop of `_hyp2f1_from_coefs`.  `k` is the term index,
`h1` the partial sum, `mlt` the current power of `arg`.  The loop breaks
(returning the partial sum after adding the current term) once
`k = param1` or the relative magnitude of the last term drops to `tol`.
The first argument is fuel; since `k` starts at 1 and the loop stops at
`k = param1`, fuel `param1` is always sufficient. -/
def hyp2f1SumGo (coefs : List ℚ) (param1 : ℕ) (arg tol : ℚ) :
    ℕ → ℕ → ℚ → ℚ → ℚ
  | 0, _, h1, _ => h1
  | fuel + 1, k, h1, mlt =>
      let u : ℚ := coefs.getD k 0 * mlt
      let h1n : ℚ := h1 + u
      if k = param1 ∨ |u / h1n| ≤ tol then h1n
      else hyp2f1SumGo coefs param1 arg tol fuel (k + 1) h1n (mlt * arg)

/-- `_hyp2f1_from_coefs(coefs, param1, arg, tol)`: evaluates the truncated
series `1 + Σ coefs[k] * arg^k` with the source's early exit. -/
def hyp2f1FromCoefs (coefs : List ℚ) (param1 : ℕ) (arg tol : ℚ) : ℚ :=
  hyp2f1SumGo coefs param1 arg tol param1 1 1 arg

/-- `_hyp2f1(param1, param2, arg, tol)`. -/
def hyp2f1 (param1 param2 : ℕ) (arg tol : ℚ) : ℚ :=
  hyp2f1FromCoefs (hyp2f1Coefs param1 param2) param1 arg tol

/-- Loop of `_blocking_prob_newton`.  `rem` is the number of remaining
iterations, `i` the current 1-based iteration index, `P` the current
iterate (`blocking_prob_`). -/
def blockingProbNewtonGo (coefs : List ℚ) (m : ℕ) (y tol : ℚ) (maxN : ℕ) :
    ℕ → ℕ → ℚ → Result
  | 0, _, P => ⟨maxN, .MAX_N_ITERS_REACHED, P⟩
  | rem + 1, i, P =>
      let x : ℚ := P + y
      let f : ℚ := 1 / hyp2f1FromCoefs coefs m x tol
      let g : ℚ := 1 / hyp2f1FromCoefs coefs m (x + tol) tol
      let Pnew : ℚ := P + (f - P) / ((f - g) / tol + 1)
      if |P - Pnew| ≤ tol then ⟨i, .OK, Pnew⟩
      else blockingProbNewtonGo coefs m y tol maxN rem (i + 1) Pnew

/-- `_blocking_prob_newton(n_servers_, n_sources_, total_traffic_,
max_n_iters, tol, initial_guess=0.5)`. -/
def blockingProbNewton (m N : ℕ) (E : ℚ) (maxN : ℕ) (tol : ℚ)
    (initialGuess : ℚ := 1 / 2) : Result :=
  blockingProbNewtonGo (hyp2f1Coefs m N) m ((N : ℚ) / E - 1) tol maxN
    maxN 1 initialGuess

/-- Loop of `_blocking_prob_fixed_point`. -/
def blockingProbFixedPointGo (coefs : List ℚ) (m : ℕ) (y tol : ℚ)
    (maxN : ℕ) : ℕ → ℕ → ℚ → Result
  | 0, _, P => ⟨maxN, .MAX_N_ITERS_REACHED, P⟩
  | rem + 1, i, P =>
      let Pnew : ℚ := 1 / hyp2f1FromCoefs coefs m (P + y) tol
      if |P - Pnew| ≤ tol then ⟨i, .OK, Pnew⟩
      else blockingProbFixedPointGo coefs m y tol maxN rem (i + 1) Pnew

/-- `_blocking_prob_fixed_point(...)`. -/
def blockingProbFixedPoint (m N : ℕ) (E : ℚ) (maxN : ℕ) (tol : ℚ)
    (initialGuess : ℚ := 1 / 2) : Result :=
  blockingProbFixedPointGo (hyp2f1Coefs m N) m ((N : ℚ) / E - 1) tol maxN
    maxN 1 initialGuess

/-- Loop of `_blocking_prob_bisect`.  `last` carries the Python local
`blocking_prob_` (the most recently computed midpoint), which is unbound
(`none`) until the first iteration runs. -/
def blockingProbBisectGo (coefs : List ℚ) (m : ℕ) (y tol : ℚ) (maxN : ℕ) :
    ℕ → ℕ → ℚ → ℚ → Option ℚ → Run
  | 0, _, _, _, last =>
      match last with
      | some P => .ret ⟨maxN, .MAX_N_ITERS_REACHED, P⟩
      | none => .unboundLocal
  | rem + 1, i, lo, hi, _ =>
      let P : ℚ := (lo + hi) / 2
      if (hi - lo) / 2 ≤ tol then .ret ⟨i, .OK, P⟩
      else if 1 / hyp2f1FromCoefs coefs m (P + y) tol < P then
        blockingProbBisectGo coefs m y tol maxN rem (i + 1) lo P (some P)
      else
        blockingProbBisectGo coefs m y tol maxN rem (i + 1) P hi (some P)

/-- `_blocking_prob_bisect(n_servers_, n_sources_, total_traffic_,
max_n_iters, tol)`. -/
def blockingProbBisect (m N : ℕ) (E : ℚ) (maxN : ℕ) (tol : ℚ) : Run :=
  blockingProbBisectGo (hyp2f1Coefs m N) m ((N : ℚ) / E - 1) tol maxN
    maxN 1 0 1 none

/-- Loop of `_n_servers_bisect`.  Integer bisection over `[lo, hi]`;
`last` carries the Python local `n_servers_` (the most recent midpoint). -/
def nServersBisectGo (P : ℚ) (N : ℕ) (y tol : ℚ) (maxN : ℕ) :
    ℕ → ℕ → ℕ → ℕ → Option ℕ → Run
  | 0, _, _, _, last =>
      match last with
      | some mv => .ret ⟨maxN, .MAX_N_ITERS_REACHED, (mv : ℚ)⟩
      | none => .unboundLocal
  | rem + 1, i, lo, hi, _ =>
      if lo = hi then .ret ⟨i, .OK, (lo : ℚ)⟩
      else
        let mid : ℕ := (lo + hi) / 2
        if 1 / hyp2f1 mid N y tol < P then
          nServersBisectGo P N y tol maxN rem (i + 1) lo mid (some mid)
        else
          nServersBisectGo P N y tol maxN rem (i + 1) (mid + 1) hi (some mid)

/-- `_n_servers_bisect(blocking_prob_, n_sources_, total_traffic_,
max_n_iters, tol)`; `y = blocking_prob_ + n_sources_ / total_traffic_ - 1`. -/
def nServersBisect (P : ℚ) (N : ℕ) (E : ℚ) (maxN : ℕ) (tol : ℚ) : Run :=
  nServersBisectGo P N (P + (N : ℚ) / E - 1) tol maxN maxN 1 1 N none

/-- Outcome of the doubling pre-phase of `_n_sources_bisect`. -/
inductive SourcesPre where
  | bracketed (nPre hi : ℕ)
  | stalled (nPre : ℕ)
  | noFuel
deriving DecidableEq

/-- The `while True:` doubling pre-phase of `_n_sources_bisect`.  `n` is
`n_pre_iters` before the increment, `hi` the current upper bound, `prev`
the previous evaluated value (`none` models the initial `np.nan`, for
which the stall comparison is false).  The first argument is fuel (a
modelling artifact; the source loop is unbounded). -/
def nSourcesPreGo (P : ℚ) (m : ℕ) (E tol : ℚ) :
    ℕ → ℕ → ℕ → Option ℚ → SourcesPre
  | 0, _, _, _ => .noFuel
  | fuel + 1, n, hi, prev =>
      let value : ℚ := 1 / hyp2f1 m hi ((P - 1) + (hi : ℚ) / E) tol
      if P ≤ value then .bracketed (n + 1) hi
      else
        match prev with
        | some pv =>
            if |value - pv| ≤ |value| * tol then .stalled (n + 1)
            else nSourcesPreGo P m E tol fuel (n + 1) (hi * 2) (some value)
        | none => nSourcesPreGo P m E tol fuel (n + 1) (hi * 2) (some value)

/-- Main loop of `_n_sources_bisect`; integer bisection with `ceil`
midpoints.  `last` carries the Python local `n_sources_`. -/
def nSourcesBisectGo (P : ℚ) (m : ℕ) (E tol : ℚ) (maxN : ℕ) :
    ℕ → ℕ → ℕ → ℕ → Option ℕ → Run
  | 0, _, _, _, last =>
      match last with
      | some Nv => .ret ⟨maxN, .MAX_N_ITERS_REACHED, (Nv : ℚ)⟩
      | none => .unboundLocal
  | rem + 1, i, lo, hi, _ =>
      if lo = hi then .ret ⟨i, .OK, (lo : ℚ)⟩
      else
        let mid : ℕ := (lo + hi + 1) / 2
        if 1 / hyp2f1 m mid ((P - 1) + (mid : ℚ) / E) tol < P then
          nSourcesBisectGo P m E tol maxN rem (i + 1) mid hi (some mid)
        else
          nSourcesBisectGo P m E tol maxN rem (i + 1) lo (mid - 1) (some mid)

/-- `_n_sources_bisect(blocking_prob_, n_servers_, total_traffic_,
max_n_iters, tol)` with explicit pre-phase fuel.  `y = blocking_prob_ - 1`;
`lo = n_servers_`, `hi = lo * 2`; the main loop runs for iteration indices
`n_pre_iters + 1, …, max_n_iters`. -/
def nSourcesBisect (P : ℚ) (m : ℕ) (E : ℚ) (maxN : ℕ) (tol : ℚ)
    (fuel : ℕ) : Run :=
  match nSourcesPreGo P m E tol fuel 0 (m * 2) none with
  | .noFuel => .fuelOut
  | .stalled n => .ret ⟨n, .UNBOUNDED, sysMaxsize⟩
  | .bracketed nPre hi =>
      nSourcesBisectGo P m E tol maxN (maxN - nPre) (nPre + 1) m hi none

/-- The `while True:` doubling pre-phase of `_total_traffic_bisect`
(no stall check); returns `(n_pre_iters, hi)` on bracketing, `none` when
the fuel (a modelling artifact) runs out. -/
def totalTrafficPreGo (P : ℚ) (m N : ℕ) (coefs : List ℚ) (tol : ℚ) :
    ℕ → ℕ → ℚ → Option (ℕ × ℚ)
  | 0, _, _ => none
  | fuel + 1, n, hi =>
      if P ≤ 1 / hyp2f1FromCoefs coefs m ((P - 1) + (N : ℚ) / hi) tol then
        some (n + 1, hi)
      else totalTrafficPreGo P m N coefs tol fuel (n + 1) (hi * 2)

/-- Main loop of `_total_traffic_bisect`.  `last` carries the Python local
`total_traffic_`. -/
def totalTrafficBisectGo (P : ℚ) (m N : ℕ) (coefs : List ℚ) (tol : ℚ)
    (maxN : ℕ) : ℕ → ℕ → ℚ → ℚ → Option ℚ → Run
  | 0, _, _, _, last =>
      match last with
      | some E => .ret ⟨maxN, .MAX_N_ITERS_REACHED, E⟩
      | none => .unboundLocal
  | rem + 1, i, lo, hi, _ =>
      let E : ℚ := (lo + hi) / 2
      if (hi - lo) / 2 ≤ tol then .ret ⟨i, .OK, E⟩
      else if 1 / hyp2f1FromCoefs coefs m ((P - 1) + (N : ℚ) / E) tol < P then
        totalTrafficBisectGo P m N coefs tol maxN rem (i + 1) E hi (some E)
      else
        totalTrafficBisectGo P m N coefs tol maxN rem (i + 1) lo E (some E)

/-- `_total_traffic_bisect(blocking_prob_, n_servers_, n_sources_,
max_n_iters, tol)` with explicit pre-phase fuel.  `lo = 0`,
`hi = float(n_sources_)` doubling in the pre-phase; the main loop runs for
iteration indices `n_pre_iters + 1, …, max_n_iters`. -/
def totalTrafficBisect (P : ℚ) (m N : ℕ) (maxN : ℕ) (tol : ℚ)
    (fuel : ℕ) : Run :=
  let coefs := hyp2f1Coefs m N
  match totalTrafficPreGo P m N coefs tol fuel 0 (N : ℚ) with
  | none => .fuelOut
  | some (nPre, hi) =>
      totalTrafficBisectGo P m N coefs tol maxN (maxN - nPre) (nPre + 1)
        0 hi none

/-- Loop of `_total_traffic_newton`.  The finite-difference step is
`h = total_traffic_ * tol`; a vanishing difference quotient returns
`UNSTABLE` with the pre-failure iterate. -/
def totalTrafficNewtonGo (P : ℚ) (m N : ℕ) (coefs : List ℚ) (tol : ℚ)
    (maxN : ℕ) : ℕ → ℕ → ℚ → Result
  | 0, _, E => ⟨maxN, .MAX_N_ITERS_REACHED, E⟩
  | rem + 1, i, E =>
      let h : ℚ := E * tol
      let f : ℚ := 1 / hyp2f1FromCoefs coefs m ((P - 1) + (N : ℚ) / E) tol
      let g : ℚ :=
        1 / hyp2f1FromCoefs coefs m ((P - 1) + (N : ℚ) / (E + h)) tol
      let d : ℚ := (f - g) / h
      if d = 0 then ⟨i, .UNSTABLE, E⟩
      else
        let Enew : ℚ := E + (f - P) / d
        if |E - Enew| / |Enew| ≤ tol then ⟨i, .OK, Enew⟩
        else totalTrafficNewtonGo P m N coefs tol maxN rem (i + 1) Enew

/-- `_total_traffic_newton(blocking_prob_, n_servers_, n_sources_,
max_n_iters, tol, initial_guess=1.0)`. -/
def totalTrafficNewton (P : ℚ) (m N : ℕ) (maxN : ℕ) (tol : ℚ)
    (initialGuess : ℚ := 1) : Result :=
  totalTrafficNewtonGo P m N (hyp2f1Coefs m N) tol maxN maxN 1 initialGuess

/-- Checked array write `arr[k] = v`: `none` models Python raising an
index error. -/
def setChecked (arr : List ℚ) (k : ℕ) (v : ℚ) : Option (List ℚ) :=
  if k < arr.length then some (arr.set k v) else none

/-- The loop of `_hyp2f1_coefs` with Python's failure modes explicit:
`none` models a raised exception — division by zero when `g = 0`
(`f` and `g` are Python ints, so `f / g` raises on `g = 0`) or an
out-of-bounds write `coefs[k]`.  The first argument is fuel; the write
check fires before the fuel can run out. -/
def coefsCheckedGo : ℕ → ℤ → ℤ → ℕ → List ℚ → Option (List ℚ)
  | 0, _, _, _, _ => none
  | fuel + 1, f, g, k, arr =>
      if g = 0 then none
      else
        let c : ℚ := (f : ℚ) / (g : ℚ) * arr.getD (k - 1) 0
        match setChecked arr k c with
        | none => none
        | some arr2 =>
            if f - 1 = 0 then some arr2
            else coefsCheckedGo fuel (f - 1) (g + 1) (k + 1) arr2

/-- `_hyp2f1_coefs(param1, param2)` with Python's failure modes explicit:
`np.zeros((param1 + 1,))` (negative size raises), `coefs[0] = 1.0`, then
the loop.  `none` models a raised exception. -/
def hyp2f1CoefsChecked (param1 param2 : ℤ) : Option (List ℚ) :=
  if param1 + 1 < 0 then none
  else
    let arr := List.replicate (param1 + 1).toNat 0
    match setChecked arr 0 1 with
    | none => none
    | some arr1 =>
        coefsCheckedGo ((param1 + 1).toNat + 1) param1 (param2 - param1)
          1 arr1

/-- The value evaluated by the sources pre-phase at doubling step `j ≥ 1`:
the upper bound examined at step `j` is `n_servers * 2 ^ j` (it starts at
`n_servers * 2` and doubles between steps). -/
def sourcesPreValue (P : ℚ) (m : ℕ) (E tol : ℚ) (j : ℕ) : ℚ :=
  1 / hyp2f1 m (m * 2 ^ j) ((P - 1) + ((m * 2 ^ j : ℕ) : ℚ) / E) tol

/-- Whether a rational is an exact integer; models Python's `x % 1 != 0`
test being false. -/
def isIntQ (q : ℚ) : Bool := q.den = 1

/-- `_validate_args(blocking_prob_, n_servers_, n_sources_,
total_traffic_)`: raises `ValueError` (modelled as `Except.error`) in the
source's check order; the final total-traffic advisory is a log warning,
not an error, and is not modelled. -/
def validateArgs (bp ns nsrc tt : ℚ) : Except String Unit :=
  if bp ≤ 0 ∨ 1 ≤ bp then
    .error "Expected blocking_prob to be strictly between 0 and 1"
  else if ns ≤ 0 ∨ ¬ isIntQ ns then
    .error "Expected n_servers to be a positive integer"
  else if nsrc ≤ ns ∨ ¬ isIntQ nsrc then
    .error "Expected n_sources to be an integer greater than n_servers"
  else if tt ≤ 0 then
    .error "Expected total_traffic to be positive"
  else .ok ()

/-- Python `int(q)` (truncation toward zero), then clamped to `ℕ` for the
solver calls; on the validated domain the arguments are positive integers,
so this is exact. -/
def pyIntNat (q : ℚ) : ℕ := (q.num / (q.den : ℤ)).toNat

/-- Public entry point `blocking_prob(n_servers, n_sources, total_traffic,
alg, max_n_iters, tol, check, initial_guess)`.  Integer-typed parameters
are taken as `ℚ` so the validation's non-integer checks are faithful. -/
def blocking_prob (nServers nSources totalTraffic : ℚ)
    (alg : Algorithm := .NEWTON) (maxN : ℕ := 1024)
    (tol : ℚ := 1 / 2 ^ 24) (check : Bool := true)
    (initialGuess : ℚ := 1 / 2) : Except String Run :=
  match (if check then validateArgs (1 / 2) nServers nSources totalTraffic
         else .ok ()) with
  | .error e => .error e
  | .ok _ =>
      let m := pyIntNat nServers
      let N := pyIntNat nSources
      match alg with
      | .BISECT => .ok (blockingProbBisect m N totalTraffic maxN tol)
      | .FIXEDP =>
          .ok (.ret (blockingProbFixedPoint m N totalTraffic maxN tol
            initialGuess))
      | .NEWTON =>
          .ok (.ret (blockingProbNewton m N totalTraffic maxN tol
            initialGuess))

/-- Public entry point `n_servers(blocking_prob, n_sources, total_traffic,
alg, max_n_iters, tol, check)`; validation is run with `n_servers_=1`;
only `Algorithm.BISECT` is supported. -/
def n_servers (blockingProb nSources totalTraffic : ℚ)
    (alg : Algorithm := .BISECT) (maxN : ℕ := 1024)
    (tol : ℚ := 1 / 2 ^ 24) (check : Bool := true) :
    Except String Run :=
  match (if check then validateArgs blockingProb 1 nSources totalTraffic
         else .ok ()) with
  | .error e => .error e
  | .ok _ =>
      let N := pyIntNat nSources
      match alg with
      | .BISECT => .ok (nServersBisect blockingProb N totalTraffic maxN tol)
      | _ => .error "Unsupported algorithm"

/-- Public entry point `n_sources(blocking_prob, n_servers, total_traffic,
alg, max_n_iters, tol, check)`; validation is run with
`n_sources_=sys.maxsize`; only `Algorithm.BISECT` is supported.  `fuel`
is the modelling artifact for the unbounded pre-phase. -/
def n_sources (blockingProb nServers totalTraffic : ℚ)
    (alg : Algorithm := .BISECT) (maxN : ℕ := 1024)
    (tol : ℚ := 1 / 2 ^ 24) (check : Bool := true) (fuel : ℕ := 128) :
    Except String Run :=
  match (if check then
           validateArgs blockingProb nServers sysMaxsize totalTraffic
         else .ok ()) with
  | .error e => .error e
  | .ok _ =>
      let m := pyIntNat nServers
      match alg with
      | .BISECT =>
          .ok (nSourcesBisect blockingProb m totalTraffic maxN tol fuel)
      | _ => .error "Unsupported algorithm"

/-- Public entry point `total_traffic(blocking_prob, n_servers, n_sources,
alg, max_n_iters, tol, check)`; validation is run with
`total_traffic_=1.0`; `BISECT` and `NEWTON` are supported.  The
post-check on `result.value > n_sources` only emits a log warning and is
not modelled.  `fuel` is the modelling artifact for the unbounded
pre-phase of the bisection variant. -/
def total_traffic (blockingProb nServers nSources : ℚ)
    (alg : Algorithm := .BISECT) (maxN : ℕ := 1024)
    (tol : ℚ := 1 / 2 ^ 24) (check : Bool := true) (fuel : ℕ := 128)
    (initialGuess : ℚ := 1) : Except String Run :=
  match (if check then validateArgs blockingProb nServers nSources 1
         else .ok ()) with
  | .error e => .error e
  | .ok _ =>
      let m := pyIntNat nServers
      let N := pyIntNat nSources
      match alg with
      | .BISECT =>
          .ok (totalTrafficBisect blockingProb m N maxN tol fuel)
      | .NEWTON =>
          .ok (.ret (totalTrafficNewton blockingProb m N maxN tol
            initialGuess))
      | _ => .error "Unsupported algorithm"

/-! ### Helper lemmas about the coefficient computation -/

theorem coefsFrom_length : ∀ (f : ℕ) (g : ℤ) (p : ℚ),
    (coefsFrom f g p).length = f
  | 0, _, _ => rfl
  | f + 1, g, p => by simp [coefsFrom, coefsFrom_length f (g + 1)]

theorem coefsFrom_getD_zero (f : ℕ) (g : ℤ) (p : ℚ) :
    (coefsFrom (f + 1) g p).getD 0 0 = ((f : ℚ) + 1) / (g : ℚ) * p := by
  simp [coefsFrom]

theorem coefsFrom_getD_succ :
    ∀ (f : ℕ) (g : ℤ) (p : ℚ) (j : ℕ), j + 1 < f →
      (coefsFrom f g p).getD (j + 1) 0 =
        (coefsFrom f g p).getD j 0 * ((f : ℚ) - ((j : ℚ) + 1)) /
          ((g : ℚ) + ((j : ℚ) + 1)) := by
  intro f
  induction f with
  | zero => intro g p j hj; omega
  | succ f ih =>
    intro g p j hj
    cases j with
    | zero =>
        obtain ⟨f2, rfl⟩ : ∃ f2, f = f2 + 1 := ⟨f - 1, by omega⟩
        simp only [coefsFrom, List.getD_cons_succ, List.getD_cons_zero,
          coefsFrom_getD_zero]
        push_cast
        ring
    | succ j2 =>
        have h2 : j2 + 1 < f := by omega
        simp only [coefsFrom, List.getD_cons_succ]
        rw [ih (g + 1) _ j2 h2]
        push_cast
        ring

/-- Claim C7: for integers `n_servers ≥ 1` and `n_sources > n_servers`,
`_hyp2f1_coefs` returns exactly `n_servers + 1` coefficients with
`c_0 = 1` and, for `1 ≤ k ≤ n_servers`,
`c_k = c_(k-1) * (n_servers - k + 1) / (n_sources - n_servers + k - 1)`;
the sequence is a function of `(n_servers, n_sources)` alone. -/
theorem claim_C7 (m N : ℕ) (hm : 1 ≤ m) (hN : m < N) :
    (hyp2f1Coefs m N).length = m + 1 ∧
    (hyp2f1Coefs m N).getD 0 0 = 1 ∧
    ∀ k, 1 ≤ k → k ≤ m →
      (hyp2f1Coefs m N).getD k 0 =
        (hyp2f1Coefs m N).getD (k - 1) 0 *
          ((m : ℚ) - (k : ℚ) + 1) / ((N : ℚ) - (m : ℚ) + (k : ℚ) - 1) := by
  refine ⟨by simp [hyp2f1Coefs, coefsFrom_length], by simp [hyp2f1Coefs], ?_⟩
  intro k hk1 hkm
  obtain ⟨j, rfl⟩ : ∃ j, k = j + 1 := ⟨k - 1, by omega⟩
  cases j with
  | zero =>
      obtain ⟨m2, rfl⟩ : ∃ m2, m = m2 + 1 := ⟨m - 1, by omega⟩
      simp only [hyp2f1Coefs, Nat.add_sub_cancel, List.getD_cons_succ,
        List.getD_cons_zero, coefsFrom_getD_zero]
      push_cast
      ring
  | succ j2 =>
      have h2 : j2 + 1 < m := by omega
      simp only [hyp2f1Coefs, List.getD_cons_succ, Nat.add_sub_cancel]
      rw [coefsFrom_getD_succ m _ 1 j2 h2]
      push_cast
      ring

theorem getD_set_self : ∀ (l : List ℚ) (k : ℕ) (c : ℚ), k < l.length →
    (l.set k c).getD k 0 = c
  | [], k, _, h => by simp at h
  | _ :: _, 0, _, _ => rfl
  | _ :: l, k + 1, c, h => by
      simpa using getD_set_self l k c (by simpa using h)

theorem set_last_eq (l : List ℚ) (k : ℕ) (c : ℚ) (h : l.length = k + 1) :
    l.set k c = l.take k ++ [c] := by
  rw [List.set_eq_take_cons_drop c (by omega)]
  have : l.drop (k + 1) = [] := List.drop_eq_nil_of_le (by omega)
  rw [this]

theorem take_succ_set (l : List ℚ) (k : ℕ) (c : ℚ) (h : k < l.length) :
    (l.set k c).take (k + 1) = l.take k ++ [c] := by
  rw [List.set_eq_take_cons_drop c h, List.take_append_eq_append_take,
    List.take_take]
  have h1 : min (k + 1) k = k := by omega
  have h2 : (l.take k).length = k := List.length_take_of_le (by omega)
  rw [h1, h2]
  simp

theorem coefsCheckedGo_eq :
    ∀ (f : ℕ), 1 ≤ f → ∀ (fuel : ℕ), f ≤ fuel → ∀ (g : ℤ), 1 ≤ g →
      ∀ (k : ℕ) (arr : List ℚ), arr.length = k + f →
        coefsCheckedGo fuel (f : ℤ) g k arr =
          some (arr.take k ++ coefsFrom f g (arr.getD (k - 1) 0)) := by
  intro f
  induction f with
  | zero => omega
  | succ f2 ih =>
    intro _ fuel hfuel g hg k arr hlen
    obtain ⟨fu, rfl⟩ : ∃ fu, fuel = fu + 1 := ⟨fuel - 1, by omega⟩
    have hk : k < arr.length := by omega
    rw [coefsCheckedGo]
    rw [if_neg (by omega)]
    simp only [setChecked]
    rw [if_pos hk]
    dsimp only
    cases f2 with
    | zero =>
        rw [if_pos (by norm_num)]
        rw [set_last_eq arr k _ (by omega)]
        simp only [coefsFrom]
        norm_num
    | succ f3 =>
        rw [if_neg (by push_cast; omega)]
        have hcast : ((f3 + 1 + 1 : ℕ) : ℤ) - 1 = ((f3 + 1 : ℕ) : ℤ) := by
          push_cast; ring
        rw [hcast]
        rw [ih (by omega) fu (by omega) (g + 1) (by omega) (k + 1)
          (arr.set k _) (by simp; omega)]
        rw [take_succ_set arr k _ hk]
        simp only [Nat.add_sub_cancel]
        rw [getD_set_self arr k _ hk]
        simp only [List.append_assoc, List.singleton_append]
        conv_rhs => rw [coefsFrom]
        have hc : (((f3 + 1 + 1 : ℕ) : ℤ) : ℚ) / (g : ℚ) *
              arr.getD (k - 1) 0 =
            (((f3 + 1 : ℕ) : ℚ) + 1) / (g : ℚ) * arr.getD (k - 1) 0 := by
          push_cast
          ring
        rw [hc]

/-- Claim C8: for integers `n_servers ≥ 1` and `n_sources > n_servers`,
the coefficient computation has no failure mode: the checked model (which
reports division by zero and out-of-bounds writes) succeeds and agrees
with the total model, and the loop terminates after filling exactly the
`n_servers + 1` slots of the array. -/
theorem claim_C8 (m N : ℕ) (hm : 1 ≤ m) (hN : m < N) :
    hyp2f1CoefsChecked (m : ℤ) (N : ℤ) = some (hyp2f1Coefs m N) ∧
    (hyp2f1Coefs m N).length = m + 1 := by
  constructor
  · rw [hyp2f1CoefsChecked]
    rw [if_neg (by omega)]
    have htn : ((m : ℤ) + 1).toNat = m + 1 := by omega
    simp only [setChecked, htn, List.length_replicate]
    rw [if_pos (by omega)]
    dsimp only
    have hset : (List.replicate (m + 1) (0 : ℚ)).set 0 1 =
        1 :: List.replicate m 0 := by
      simp [List.replicate_succ]
    rw [hset]
    rw [coefsCheckedGo_eq m hm (m + 2) (by omega) ((N : ℤ) - (m : ℤ))
      (by omega) 1 (1 :: List.replicate m 0) (by simp; omega)]
    simp [hyp2f1Coefs]
  · simp [hyp2f1Coefs, coefsFrom_length]

/-- Claim C8 witness: the checked coefficient computation succeeds on the
concrete valid input `n_servers = 3`, `n_sources = 5`. -/
theorem claim_C8_witness :
    hyp2f1CoefsChecked 3 5 = some (hyp2f1Coefs 3 5) ∧
    (hyp2f1Coefs 3 5).length = 3 + 1 :=
  claim_C8 3 5 (by norm_num) (by norm_num)

/-! ### Iteration accounting for the solver loops -/

theorem blockingProbNewtonGo_class (coefs : List ℚ) (m : ℕ) (y tol : ℚ)
    (maxN : ℕ) : ∀ (rem i : ℕ) (P : ℚ), 1 ≤ i →
    (i + rem ≤ maxN + 1 ∨ rem = 0) →
    (((blockingProbNewtonGo coefs m y tol maxN rem i P).status = .OK ∧
        1 ≤ (blockingProbNewtonGo coefs m y tol maxN rem i P).n_iters ∧
        (blockingProbNewtonGo coefs m y tol maxN rem i P).n_iters ≤ maxN) ∨
      ((blockingProbNewtonGo coefs m y tol maxN rem i P).status =
          .MAX_N_ITERS_REACHED ∧
        (blockingProbNewtonGo coefs m y tol maxN rem i P).n_iters = maxN)) := by
  intro rem
  induction rem with
  | zero => intro i P h1 hb; right; exact ⟨rfl, rfl⟩
  | succ rem ih =>
      intro i P h1 hb
      rw [blockingProbNewtonGo]
      split
      · left; exact ⟨rfl, h1, by show i ≤ maxN; omega⟩
      · exact ih (i + 1) _ (by omega) (by omega)

theorem blockingProbFixedPointGo_class (coefs : List ℚ) (m : ℕ) (y tol : ℚ)
    (maxN : ℕ) : ∀ (rem i : ℕ) (P : ℚ), 1 ≤ i →
    (i + rem ≤ maxN + 1 ∨ rem = 0) →
    (((blockingProbFixedPointGo coefs m y tol maxN rem i P).status = .OK ∧
        1 ≤ (blockingProbFixedPointGo coefs m y tol maxN rem i P).n_iters ∧
        (blockingProbFixedPointGo coefs m y tol maxN rem i P).n_iters ≤
          maxN) ∨
      ((blockingProbFixedPointGo coefs m y tol maxN rem i P).status =
          .MAX_N_ITERS_REACHED ∧
        (blockingProbFixedPointGo coefs m y tol maxN rem i P).n_iters =
          maxN)) := by
  intro rem
  induction rem with
  | zero => intro i P h1 hb; right; exact ⟨rfl, rfl⟩
  | succ rem ih =>
      intro i P h1 hb
      rw [blockingProbFixedPointGo]
      split
      · left; exact ⟨rfl, h1, by show i ≤ maxN; omega⟩
      · exact ih (i + 1) _ (by omega) (by omega)

theorem blockingProbBisectGo_class (coefs : List ℚ) (m : ℕ) (y tol : ℚ)
    (maxN : ℕ) : ∀ (rem i : ℕ) (lo hi : ℚ) (last : Option ℚ) (r : Result),
    1 ≤ i → (i + rem ≤ maxN + 1 ∨ rem = 0) →
    blockingProbBisectGo coefs m y tol maxN rem i lo hi last = .ret r →
    ((r.status = .OK ∧ 1 ≤ r.n_iters ∧ r.n_iters ≤ maxN) ∨
      (r.status = .MAX_N_ITERS_REACHED ∧ r.n_iters = maxN)) := by
  intro rem
  induction rem with
  | zero =>
      intro i lo hi last r h1 hb hret
      cases last with
      | none => simp [blockingProbBisectGo] at hret
      | some q =>
          simp only [blockingProbBisectGo, Run.ret.injEq] at hret
          right
          rw [← hret]
          exact ⟨rfl, rfl⟩
  | succ rem ih =>
      intro i lo hi last r h1 hb hret
      rw [blockingProbBisectGo] at hret
      split at hret
      · cases hret; left; exact ⟨rfl, h1, by show i ≤ maxN; omega⟩
      · split at hret
        · exact ih (i + 1) _ _ _ r (by omega) (by omega) hret
        · exact ih (i + 1) _ _ _ r (by omega) (by omega) hret

theorem nServersBisectGo_class (P : ℚ) (N : ℕ) (y tol : ℚ)
    (maxN : ℕ) : ∀ (rem i lo hi : ℕ) (last : Option ℕ) (r : Result),
    1 ≤ i → (i + rem ≤ maxN + 1 ∨ rem = 0) →
    nServersBisectGo P N y tol maxN rem i lo hi last = .ret r →
    ((r.status = .OK ∧ 1 ≤ r.n_iters ∧ r.n_iters ≤ maxN) ∨
      (r.status = .MAX_N_ITERS_REACHED ∧ r.n_iters = maxN)) := by
  intro rem
  induction rem with
  | zero =>
      intro i lo hi last r h1 hb hret
      cases last with
      | none => simp [nServersBisectGo] at hret
      | some q =>
          simp only [nServersBisectGo, Run.ret.injEq] at hret
          right
          rw [← hret]
          exact ⟨rfl, rfl⟩
  | succ rem ih =>
      intro i lo hi last r h1 hb hret
      rw [nServersBisectGo] at hret
      split at hret
      · cases hret; left; exact ⟨rfl, h1, by show i ≤ maxN; omega⟩
      · dsimp only at hret
        split at hret
        · exact ih (i + 1) _ _ _ r (by omega) (by omega) hret
        · exact ih (i + 1) _ _ _ r (by omega) (by omega) hret

theorem nSourcesBisectGo_class (P : ℚ) (m : ℕ) (E tol : ℚ)
    (maxN : ℕ) : ∀ (rem i lo hi : ℕ) (last : Option ℕ) (r : Result),
    1 ≤ i → (i + rem ≤ maxN + 1 ∨ rem = 0) →
    nSourcesBisectGo P m E tol maxN rem i lo hi last = .ret r →
    ((r.status = .OK ∧ 1 ≤ r.n_iters ∧ r.n_iters ≤ maxN) ∨
      (r.status = .MAX_N_ITERS_REACHED ∧ r.n_iters = maxN)) := by
  intro rem
  induction rem with
  | zero =>
      intro i lo hi last r h1 hb hret
      cases last with
      | none => simp [nSourcesBisectGo] at hret
      | some q =>
          simp only [nSourcesBisectGo, Run.ret.injEq] at hret
          right
          rw [← hret]
          exact ⟨rfl, rfl⟩
  | succ rem ih =>
      intro i lo hi last r h1 hb hret
      rw [nSourcesBisectGo] at hret
      split at hret
      · cases hret; left; exact ⟨rfl, h1, by show i ≤ maxN; omega⟩
      · dsimp only at hret
        split at hret
        · exact ih (i + 1) _ _ _ r (by omega) (by omega) hret
        · exact ih (i + 1) _ _ _ r (by omega) (by omega) hret

theorem totalTrafficBisectGo_class (P : ℚ) (m N : ℕ) (coefs : List ℚ)
    (tol : ℚ) (maxN : ℕ) :
    ∀ (rem i : ℕ) (lo hi : ℚ) (last : Option ℚ) (r : Result),
    1 ≤ i → (i + rem ≤ maxN + 1 ∨ rem = 0) →
    totalTrafficBisectGo P m N coefs tol maxN rem i lo hi last = .ret r →
    ((r.status = .OK ∧ 1 ≤ r.n_iters ∧ r.n_iters ≤ maxN) ∨
      (r.status = .MAX_N_ITERS_REACHED ∧ r.n_iters = maxN)) := by
  intro rem
  induction rem with
  | zero =>
      intro i lo hi last r h1 hb hret
      cases last with
      | none => simp [totalTrafficBisectGo] at hret
      | some q =>
          simp only [totalTrafficBisectGo, Run.ret.injEq] at hret
          right
          rw [← hret]
          exact ⟨rfl, rfl⟩
  | succ rem ih =>
      intro i lo hi last r h1 hb hret
      rw [totalTrafficBisectGo] at hret
      split at hret
      · cases hret; left; exact ⟨rfl, h1, by show i ≤ maxN; omega⟩
      · split at hret
        · exact ih (i + 1) _ _ _ r (by omega) (by omega) hret
        · exact ih (i + 1) _ _ _ r (by omega) (by omega) hret

theorem totalTrafficNewtonGo_class (P : ℚ) (m N : ℕ) (coefs : List ℚ)
    (tol : ℚ) (maxN : ℕ) : ∀ (rem i : ℕ) (E : ℚ), 1 ≤ i →
    (i + rem ≤ maxN + 1 ∨ rem = 0) →
    (((totalTrafficNewtonGo P m N coefs tol maxN rem i E).status = .OK ∨
        (totalTrafficNewtonGo P m N coefs tol maxN rem i E).status =
          .UNSTABLE) ∧
      1 ≤ (totalTrafficNewtonGo P m N coefs tol maxN rem i E).n_iters ∧
      (totalTrafficNewtonGo P m N coefs tol maxN rem i E).n_iters ≤ maxN) ∨
    ((totalTrafficNewtonGo P m N coefs tol maxN rem i E).status =
        .MAX_N_ITERS_REACHED ∧
      (totalTrafficNewtonGo P m N coefs tol maxN rem i E).n_iters = maxN) := by
  intro rem
  induction rem with
  | zero => intro i E h1 hb; right; exact ⟨rfl, rfl⟩
  | succ rem ih =>
      intro i E h1 hb
      rw [totalTrafficNewtonGo]
      split
      · left; exact ⟨Or.inr rfl, h1, by show i ≤ maxN; omega⟩
      · dsimp only
        split
        · left; exact ⟨Or.inl rfl, h1, by show i ≤ maxN; omega⟩
        · exact ih (i + 1) _ (by omega) (by omega)

/-- Claim C1 (amended): for every input, the main loop of every solver
performs at most `max_n_iters` iterations — the returned `n_iters` is at
most `max_n_iters` for the three blocking-probability solvers and the
servers solve, and likewise for the main loops of the sources and
total-traffic bisections no matter how many iterations `nPre` their
pre-phase consumed.  The doubling pre-phases themselves are not bounded
by `max_n_iters` (see the counterexample). -/
theorem claim_C1_amended (m N : ℕ) (E tol P ig : ℚ) (maxN : ℕ) :
    (blockingProbNewton m N E maxN tol ig).n_iters ≤ maxN ∧
    (blockingProbFixedPoint m N E maxN tol ig).n_iters ≤ maxN ∧
    (∀ r, blockingProbBisect m N E maxN tol = .ret r →
      r.n_iters ≤ maxN) ∧
    (∀ r, nServersBisect P N E maxN tol = .ret r → r.n_iters ≤ maxN) ∧
    (∀ (nPre lo hi : ℕ) (r : Result),
      nSourcesBisectGo P m E tol maxN (maxN - nPre) (nPre + 1) lo hi none =
        .ret r → r.n_iters ≤ maxN) ∧
    (∀ (nPre : ℕ) (lo hi : ℚ) (r : Result),
      totalTrafficBisectGo P m N (hyp2f1Coefs m N) tol maxN (maxN - nPre)
        (nPre + 1) lo hi none = .ret r → r.n_iters ≤ maxN) ∧
    (totalTrafficNewton P m N maxN tol ig).n_iters ≤ maxN := by
  refine ⟨?_, ?_, ?_, ?_, ?_, ?_, ?_⟩
  · rw [blockingProbNewton]
    rcases blockingProbNewtonGo_class (hyp2f1Coefs m N) m ((N : ℚ) / E - 1)
        tol maxN maxN 1 ig (by omega) (by omega) with ⟨_, _, h⟩ | ⟨_, h⟩
    · exact h
    · exact le_of_eq h
  · rw [blockingProbFixedPoint]
    rcases blockingProbFixedPointGo_class (hyp2f1Coefs m N) m
        ((N : ℚ) / E - 1) tol maxN maxN 1 ig (by omega) (by omega) with
      ⟨_, _, h⟩ | ⟨_, h⟩
    · exact h
    · exact le_of_eq h
  · intro r hret
    rw [blockingProbBisect] at hret
    rcases blockingProbBisectGo_class (hyp2f1Coefs m N) m ((N : ℚ) / E - 1)
        tol maxN maxN 1 0 1 none r (by omega) (by omega) hret with
      ⟨_, _, h⟩ | ⟨_, h⟩
    · exact h
    · exact le_of_eq h
  · intro r hret
    rw [nServersBisect] at hret
    rcases nServersBisectGo_class P N (P + (N : ℚ) / E - 1) tol maxN maxN
        1 1 N none r (by omega) (by omega) hret with ⟨_, _, h⟩ | ⟨_, h⟩
    · exact h
    · exact le_of_eq h
  · intro nPre lo hi r hret
    rcases nSourcesBisectGo_class P m E tol maxN (maxN - nPre) (nPre + 1)
        lo hi none r (by omega) (by omega) hret with ⟨_, _, h⟩ | ⟨_, h⟩
    · exact h
    · exact le_of_eq h
  · intro nPre lo hi r hret
    rcases totalTrafficBisectGo_class P m N (hyp2f1Coefs m N) tol maxN
        (maxN - nPre) (nPre + 1) lo hi none r (by omega) (by omega) hret with
      ⟨_, _, h⟩ | ⟨_, h⟩
    · exact h
    · exact le_of_eq h
  · rw [totalTrafficNewton]
    rcases totalTrafficNewtonGo_class P m N (hyp2f1Coefs m N) tol maxN maxN
        1 ig (by omega) (by omega) with ⟨_, _, h⟩ | ⟨_, h⟩
    · exact h
    · exact le_of_eq h

/-- Claim C1 counterexample: on the valid input blocking_prob = 9/10,
n_servers = 1, n_sources = 2, max_n_iters = 1, the doubling pre-phase of
the total-traffic bisection performs 4 iterations — more than
max_n_iters — before it brackets the target at hi = 16, so the iteration
cap is not the sole bound on the iterations a call performs; the call
then does not even return (the main loop body never runs and the return
statement reads the unassigned local `total_traffic_`). -/
theorem claim_C1_cex :
    totalTrafficPreGo (9 / 10) 1 2 (hyp2f1Coefs 1 2) (1 / 2 ^ 24) 10 0 2 =
      some (4, 16) ∧
    totalTrafficBisect (9 / 10) 1 2 1 (1 / 2 ^ 24) 10 = .unboundLocal := by
  constructor
  · norm_num [totalTrafficPreGo, hyp2f1Coefs, coefsFrom, hyp2f1FromCoefs,
      hyp2f1SumGo, abs]
  · rw [totalTrafficBisect]
    norm_num [totalTrafficPreGo, totalTrafficBisectGo, hyp2f1Coefs,
      coefsFrom, hyp2f1FromCoefs, hyp2f1SumGo, abs]

/-- Claim C1 witness: the amended bound instantiated on concrete runs
with max_n_iters = 1. -/
theorem claim_C1_witness :
    (blockingProbNewton 1 2 1 1 (1 / 2 ^ 24) (1 / 2)).n_iters ≤ 1 ∧
    (blockingProbFixedPoint 1 2 1 1 (1 / 2 ^ 24) (1 / 2)).n_iters ≤ 1 ∧
    (Result.mk 1 .MAX_N_ITERS_REACHED (1 / 2)).n_iters ≤ 1 ∧
    (Result.mk 1 .MAX_N_ITERS_REACHED 1).n_iters ≤ 1 ∧
    (Result.mk 1 .OK 1).n_iters ≤ 1 ∧
    (Result.mk 1 .OK 0).n_iters ≤ 1 ∧
    (totalTrafficNewton (1 / 2) 1 2 1 (1 / 2 ^ 24) (1 / 2)).n_iters ≤ 1 := by
  obtain ⟨h1, h2, h3, h4, h5, h6, h7⟩ :=
    claim_C1_amended 1 2 1 (1 / 2 ^ 24) (1 / 2) (1 / 2) 1
  refine ⟨h1, h2, ?_, ?_, ?_, ?_, h7⟩
  · refine h3 _ ?_
    rw [blockingProbBisect]
    norm_num [blockingProbBisectGo, hyp2f1Coefs, coefsFrom,
      hyp2f1FromCoefs, hyp2f1SumGo, abs]
  · refine h4 _ ?_
    rw [nServersBisect]
    norm_num [nServersBisectGo, hyp2f1, hyp2f1Coefs, coefsFrom,
      hyp2f1FromCoefs, hyp2f1SumGo, abs]
  · refine h5 0 1 1 _ ?_
    norm_num [nSourcesBisectGo]
  · refine h6 0 0 0 _ ?_
    norm_num [totalTrafficBisectGo]

/-- Claim C3 (code-bug evaluation): on the valid input
blocking_prob = 1/10, n_servers = 1, total_traffic = 1, max_n_iters = 1,
the sources solve's doubling pre-phase brackets the target at its first
step, consuming the entire iteration budget; the main loop body never
runs and the return statement reads the unassigned local `n_sources_`,
so the call raises UnboundLocalError instead of returning the
`(max_n_iters, MAX_N_ITERS_REACHED, <last iterate>)` result promised by
the shared convention. -/
theorem claim_C3 :
    nSourcesBisect (1 / 10) 1 1 1 (1 / 2 ^ 24) 10 = .unboundLocal := by
  norm_num [nSourcesBisect, nSourcesPreGo, nSourcesBisectGo, hyp2f1,
    hyp2f1Coefs, coefsFrom, hyp2f1FromCoefs, hyp2f1SumGo, abs]

/-- Claim C7 witness: the recurrence instantiated on the concrete valid
input `n_servers = 3`, `n_sources = 5` at `k = 2`. -/
theorem claim_C7_witness :
    (hyp2f1Coefs 3 5).length = 3 + 1 ∧
    (hyp2f1Coefs 3 5).getD 0 0 = 1 ∧
    (hyp2f1Coefs 3 5).getD 2 0 =
      (hyp2f1Coefs 3 5).getD 1 0 *
        (((3 : ℕ) : ℚ) - ((2 : ℕ) : ℚ) + 1) /
        (((5 : ℕ) : ℚ) - ((3 : ℕ) : ℚ) + ((2 : ℕ) : ℚ) - 1) := by
  obtain ⟨h1, h2, h3⟩ := claim_C7 3 5 (by norm_num) (by norm_num)
  exact ⟨h1, h2, h3 2 (by norm_num) (by norm_num)⟩

/-- Bracket invariant of the blocking-probability bisection loop: if the
bracket `[lo, hi]` lies inside `[0, 1]`, any carried last iterate lies in
`[0, 1]`, and the loop still has an iteration left (or a last iterate is
already assigned), the loop returns a result whose value lies in `[0, 1]`. -/
theorem blockingProbBisectGo_bracket (coefs : List ℚ) (m : ℕ) (y tol : ℚ)
    (maxN : ℕ) : ∀ (rem i : ℕ) (lo hi : ℚ) (last : Option ℚ),
    0 ≤ lo → lo ≤ hi → hi ≤ 1 →
    (∀ q, last = some q → 0 ≤ q ∧ q ≤ 1) →
    (rem = 0 → last ≠ none) →
    ∃ r, blockingProbBisectGo coefs m y tol maxN rem i lo hi last = .ret r ∧
      0 ≤ r.value ∧ r.value ≤ 1 := by
  intro rem
  induction rem with
  | zero =>
      intro i lo hi last h0 hlh hh1 hlast hne
      cases last with
      | none => exact absurd rfl (hne rfl)
      | some q =>
          exact ⟨⟨maxN, .MAX_N_ITERS_REACHED, q⟩, by
            simp [blockingProbBisectGo], (hlast q rfl).1, (hlast q rfl).2⟩
  | succ rem ih =>
      intro i lo hi last h0 hlh hh1 hlast hne
      rw [blockingProbBisectGo]
      have hmid0 : 0 ≤ (lo + hi) / 2 := by linarith
      have hmid1 : (lo + hi) / 2 ≤ 1 := by linarith
      by_cases hc1 : (hi - lo) / 2 ≤ tol
      · rw [if_pos hc1]
        exact ⟨⟨i, .OK, (lo + hi) / 2⟩, rfl, hmid0, hmid1⟩
      · rw [if_neg hc1]
        by_cases hc2 :
            1 / hyp2f1FromCoefs coefs m ((lo + hi) / 2 + y) tol <
              (lo + hi) / 2
        · rw [if_pos hc2]
          exact ih (i + 1) lo ((lo + hi) / 2) (some ((lo + hi) / 2)) h0
            (by linarith) hmid1
            (fun q hq => by cases hq; exact ⟨hmid0, hmid1⟩)
            (fun _ => by simp)
        · rw [if_neg hc2]
          exact ih (i + 1) ((lo + hi) / 2) hi (some ((lo + hi) / 2)) hmid0
            (by linarith) hh1
            (fun q hq => by cases hq; exact ⟨hmid0, hmid1⟩)
            (fun _ => by simp)

/-- Claim C9: the continuous blocking-probability bisection maintains the
bracket `0 ≤ lo ≤ hi ≤ 1`, so for every input with `max_n_iters ≥ 1` it
returns a result — with either status — whose value lies in `[0, 1]`. -/
theorem claim_C9 (m N : ℕ) (E tol : ℚ) (maxN : ℕ) (hmax : 1 ≤ maxN) :
    ∃ r, blockingProbBisect m N E maxN tol = .ret r ∧
      0 ≤ r.value ∧ r.value ≤ 1 := by
  rw [blockingProbBisect]
  exact blockingProbBisectGo_bracket (hyp2f1Coefs m N) m ((N : ℚ) / E - 1)
    tol maxN maxN 1 0 1 none (by norm_num) (by norm_num) (by norm_num)
    (fun q hq => by cases hq) (fun h => absurd h (by omega))

/-- Claim C9 witness: the bounded-value guarantee on a concrete input. -/
theorem claim_C9_witness :
    ∃ r, blockingProbBisect 5 10 2 1024 (1 / 2 ^ 24) = .ret r ∧
      0 ≤ r.value ∧ r.value ≤ 1 :=
  claim_C9 5 10 2 (1 / 2 ^ 24) 1024 (by norm_num)

/-- Claim C2 (amended): only the total-traffic Newton variant guards the
division by the finite-difference quotient: whenever its estimate
`(f - g) / (E * tol)` at the current iterate `E` is exactly zero, it
returns immediately with status UNSTABLE and the pre-failure iterate as
value.  The blocking-probability Newton variant has no such check — its
update divides by `(f - g) / tol + 1`, so a vanishing difference leaves
the denominator at `1` — and it never returns UNSTABLE. -/
theorem claim_C2_amended :
    (∀ (P : ℚ) (m N : ℕ) (coefs : List ℚ) (tol : ℚ) (maxN rem i : ℕ)
        (E : ℚ),
      (1 / hyp2f1FromCoefs coefs m (P - 1 + (N : ℚ) / E) tol -
          1 / hyp2f1FromCoefs coefs m (P - 1 + (N : ℚ) / (E + E * tol))
            tol) / (E * tol) = 0 →
      totalTrafficNewtonGo P m N coefs tol maxN (rem + 1) i E =
        ⟨i, .UNSTABLE, E⟩) ∧
    (∀ (m N : ℕ) (E : ℚ) (maxN : ℕ) (tol ig : ℚ),
      (blockingProbNewton m N E maxN tol ig).status ≠ .UNSTABLE) := by
  constructor
  · intro P m N coefs tol maxN rem i E hd
    rw [totalTrafficNewtonGo]
    rw [if_pos hd]
  · intro m N E maxN tol ig
    rw [blockingProbNewton]
    rcases blockingProbNewtonGo_class (hyp2f1Coefs m N) m ((N : ℚ) / E - 1)
        tol maxN maxN 1 ig (by omega) (by omega) with ⟨h, _⟩ | ⟨h, _⟩ <;>
      simp [h]

/-- Claim C2 counterexample: for the blocking-probability Newton variant
on the valid input n_servers = 2, n_sources = 3, total_traffic = 3,
max_n_iters = 1, tol = 1/2, initial_guess = -5/4, the finite-difference
derivative estimate at the first iterate is exactly zero, yet the result
has status MAX_N_ITERS_REACHED (value 16), not UNSTABLE: the claimed
explicit zero check does not exist in this variant. -/
theorem claim_C2_cex :
    (1 / hyp2f1FromCoefs (hyp2f1Coefs 2 3) 2
          (-5 / 4 + ((3 : ℚ) / 3 - 1) + 1 / 2) (1 / 2) -
        1 / hyp2f1FromCoefs (hyp2f1Coefs 2 3) 2
          (-5 / 4 + ((3 : ℚ) / 3 - 1)) (1 / 2)) / (1 / 2) = 0 ∧
    blockingProbNewton 2 3 3 1 (1 / 2) (-5 / 4) =
      ⟨1, .MAX_N_ITERS_REACHED, 16⟩ := by
  constructor
  · norm_num [hyp2f1Coefs, coefsFrom, hyp2f1FromCoefs, hyp2f1SumGo, abs]
  · norm_num [blockingProbNewton, blockingProbNewtonGo, hyp2f1Coefs,
      coefsFrom, hyp2f1FromCoefs, hyp2f1SumGo, abs]

/-- Claim C2 witness: the guarded total-traffic Newton step at a concrete
state with a vanishing estimate, and the blocking-probability variant's
status on a concrete run. -/
theorem claim_C2_witness :
    totalTrafficNewtonGo (1 / 2) 2 3 [1, 2, 1] 1 1 1 1 (-9 / 2) =
      ⟨1, .UNSTABLE, -9 / 2⟩ ∧
    (blockingProbNewton 1 2 1 1 (1 / 2 ^ 24) (1 / 2)).status ≠
      .UNSTABLE := by
  obtain ⟨hA, hB⟩ := claim_C2_amended
  exact ⟨hA (1 / 2) 2 3 [1, 2, 1] 1 1 0 1 (-9 / 2)
      (by norm_num [hyp2f1FromCoefs, hyp2f1SumGo, abs]),
    hB 1 2 1 1 (1 / 2 ^ 24) (1 / 2)⟩

/-- Claim C10: with `check=False`, every public entry point performs no
argument validation at all — for arbitrary (including malformed)
parameters it returns the dispatched numerical routine's outcome and
never a usage error. -/
theorem claim_C10 :
    (∀ (ns nsrc tt : ℚ) (maxN : ℕ) (tol ig : ℚ),
      blocking_prob ns nsrc tt .NEWTON maxN tol false ig =
        .ok (.ret (blockingProbNewton (pyIntNat ns) (pyIntNat nsrc) tt
          maxN tol ig)) ∧
      blocking_prob ns nsrc tt .BISECT maxN tol false ig =
        .ok (blockingProbBisect (pyIntNat ns) (pyIntNat nsrc) tt maxN
          tol) ∧
      blocking_prob ns nsrc tt .FIXEDP maxN tol false ig =
        .ok (.ret (blockingProbFixedPoint (pyIntNat ns) (pyIntNat nsrc)
          tt maxN tol ig))) ∧
    (∀ (bp nsrc tt : ℚ) (maxN : ℕ) (tol : ℚ),
      n_servers bp nsrc tt .BISECT maxN tol false =
        .ok (nServersBisect bp (pyIntNat nsrc) tt maxN tol)) ∧
    (∀ (bp ns tt : ℚ) (maxN : ℕ) (tol : ℚ) (fuel : ℕ),
      n_sources bp ns tt .BISECT maxN tol false fuel =
        .ok (nSourcesBisect bp (pyIntNat ns) tt maxN tol fuel)) ∧
    (∀ (bp ns nsrc : ℚ) (maxN : ℕ) (tol : ℚ) (fuel : ℕ) (ig : ℚ),
      total_traffic bp ns nsrc .BISECT maxN tol false fuel ig =
        .ok (totalTrafficBisect bp (pyIntNat ns) (pyIntNat nsrc) maxN tol
          fuel) ∧
      total_traffic bp ns nsrc .NEWTON maxN tol false fuel ig =
        .ok (.ret (totalTrafficNewton bp (pyIntNat ns) (pyIntNat nsrc)
          maxN tol ig))) :=
  ⟨fun _ _ _ _ _ _ => ⟨rfl, rfl, rfl⟩, fun _ _ _ _ _ => rfl,
    fun _ _ _ _ _ _ => rfl, fun _ _ _ _ _ _ _ => ⟨rfl, rfl⟩⟩

/-- If any of the checks of `_validate_args` fires, it raises (returns an
error). -/
theorem validateArgs_error (bp ns nsrc tt : ℚ)
    (h : bp ≤ 0 ∨ 1 ≤ bp ∨ ns ≤ 0 ∨ ¬ isIntQ ns ∨ nsrc ≤ ns ∨
      ¬ isIntQ nsrc ∨ tt ≤ 0) :
    ∃ e, validateArgs bp ns nsrc tt = .error e := by
  rw [validateArgs]
  split
  · exact ⟨_, rfl⟩
  · split
    · exact ⟨_, rfl⟩
    · split
      · exact ⟨_, rfl⟩
      · split
        · exact ⟨_, rfl⟩
        · tauto

/-- Claim C4: each public entry point called with its default arguments
returns a usage error — never a result — whenever one of its inputs is
malformed in the claimed way (blocking probability outside the open unit
interval, non-positive or non-integer counts, `n_sources ≤ n_servers`,
non-positive traffic, each as applicable to that entry point's inputs);
and an unsupported algorithm selector for an entry point is likewise a
usage error. -/
theorem claim_C4 :
    (∀ ns nsrc tt : ℚ,
      (ns ≤ 0 ∨ ¬ isIntQ ns ∨ nsrc ≤ ns ∨ ¬ isIntQ nsrc ∨ tt ≤ 0) →
      ∃ e, blocking_prob ns nsrc tt = .error e) ∧
    (∀ bp nsrc tt : ℚ,
      (bp ≤ 0 ∨ 1 ≤ bp ∨ nsrc ≤ 1 ∨ ¬ isIntQ nsrc ∨ tt ≤ 0) →
      ∃ e, n_servers bp nsrc tt = .error e) ∧
    (∀ bp ns tt : ℚ,
      (bp ≤ 0 ∨ 1 ≤ bp ∨ ns ≤ 0 ∨ ¬ isIntQ ns ∨ tt ≤ 0) →
      ∃ e, n_sources bp ns tt = .error e) ∧
    (∀ bp ns nsrc : ℚ,
      (bp ≤ 0 ∨ 1 ≤ bp ∨ ns ≤ 0 ∨ ¬ isIntQ ns ∨ nsrc ≤ ns ∨
        ¬ isIntQ nsrc) →
      ∃ e, total_traffic bp ns nsrc = .error e) ∧
    (∀ (bp nsrc tt : ℚ) (alg : Algorithm), alg ≠ .BISECT →
      ∃ e, n_servers bp nsrc tt alg = .error e) ∧
    (∀ (bp ns tt : ℚ) (alg : Algorithm), alg ≠ .BISECT →
      ∃ e, n_sources bp ns tt alg = .error e) ∧
    (∀ bp ns nsrc : ℚ,
      ∃ e, total_traffic bp ns nsrc .FIXEDP = .error e) := by
  refine ⟨?_, ?_, ?_, ?_, ?_, ?_, ?_⟩
  · intro ns nsrc tt h
    obtain ⟨e, he⟩ := validateArgs_error (1 / 2) ns nsrc tt (by tauto)
    refine ⟨e, ?_⟩
    simp only [blocking_prob, he]
    rfl
  · intro bp nsrc tt h
    obtain ⟨e, he⟩ := validateArgs_error bp 1 nsrc tt (by tauto)
    refine ⟨e, ?_⟩
    simp only [n_servers, he]
    rfl
  · intro bp ns tt h
    obtain ⟨e, he⟩ := validateArgs_error bp ns sysMaxsize tt (by tauto)
    refine ⟨e, ?_⟩
    simp only [n_sources, he]
    rfl
  · intro bp ns nsrc h
    obtain ⟨e, he⟩ := validateArgs_error bp ns nsrc 1 (by tauto)
    refine ⟨e, ?_⟩
    simp only [total_traffic, he]
    rfl
  · intro bp nsrc tt alg halg
    cases hv : validateArgs bp 1 nsrc tt with
    | error e => exact ⟨e, by simp only [n_servers, hv]; rfl⟩
    | ok u =>
        cases alg with
        | BISECT => exact absurd rfl halg
        | FIXEDP =>
            exact ⟨"Unsupported algorithm",
              by simp only [n_servers, hv]; rfl⟩
        | NEWTON =>
            exact ⟨"Unsupported algorithm",
              by simp only [n_servers, hv]; rfl⟩
  · intro bp ns tt alg halg
    cases hv : validateArgs bp ns sysMaxsize tt with
    | error e => exact ⟨e, by simp only [n_sources, hv]; rfl⟩
    | ok u =>
        cases alg with
        | BISECT => exact absurd rfl halg
        | FIXEDP =>
            exact ⟨"Unsupported algorithm",
              by simp only [n_sources, hv]; rfl⟩
        | NEWTON =>
            exact ⟨"Unsupported algorithm",
              by simp only [n_sources, hv]; rfl⟩
  · intro bp ns nsrc
    cases hv : validateArgs bp ns nsrc 1 with
    | error e => exact ⟨e, by simp only [total_traffic, hv]; rfl⟩
    | ok u =>
        exact ⟨"Unsupported algorithm",
          by simp only [total_traffic, hv]; rfl⟩

/-- Claim C4 witness: concrete malformed inputs for each entry point and
concrete unsupported selectors, each yielding a usage error. -/
theorem claim_C4_witness :
    (∃ e, blocking_prob 0 2 1 = .error e) ∧
    (∃ e, n_servers (1 / 2) 1 1 = .error e) ∧
    (∃ e, n_sources 1 1 1 = .error e) ∧
    (∃ e, total_traffic (1 / 2) 2 2 = .error e) ∧
    (∃ e, n_servers (1 / 2) 2 1 .NEWTON = .error e) ∧
    (∃ e, n_sources (1 / 2) 1 1 .FIXEDP = .error e) ∧
    (∃ e, total_traffic (1 / 2) 1 2 .FIXEDP = .error e) := by
  obtain ⟨h1, h2, h3, h4, h5, h6, h7⟩ := claim_C4
  exact ⟨h1 0 2 1 (by norm_num), h2 (1 / 2) 1 1 (by norm_num),
    h3 1 1 1 (by norm_num), h4 (1 / 2) 2 2 (by norm_num),
    h5 (1 / 2) 2 1 .NEWTON (by simp), h6 (1 / 2) 1 1 .FIXEDP (by simp),
    h7 (1 / 2) 1 2⟩

/-- Bracket invariant of the integer servers bisection: `lo - 1` (when
`lo > 1`) evaluates at or above the target and `hi` (unless it is still
the untested initial bound `N`) evaluates strictly below it; an OK return
value therefore satisfies both one-sided conditions. -/
theorem nServersBisectGo_inv (P : ℚ) (N : ℕ) (y tol : ℚ) (maxN : ℕ) :
    ∀ (rem i lo hi : ℕ) (last : Option ℕ) (r : Result),
    1 ≤ lo → lo ≤ hi →
    (lo = 1 ∨ P ≤ 1 / hyp2f1 (lo - 1) N y tol) →
    (hi = N ∨ 1 / hyp2f1 hi N y tol < P) →
    nServersBisectGo P N y tol maxN rem i lo hi last = .ret r →
    r.status = .OK →
    ∃ v : ℕ, r.value = (v : ℚ) ∧ 1 ≤ v ∧
      (v = 1 ∨ P ≤ 1 / hyp2f1 (v - 1) N y tol) ∧
      (v = N ∨ 1 / hyp2f1 v N y tol < P) := by
  intro rem
  induction rem with
  | zero =>
      intro i lo hi last r _ _ _ _ hret hOK
      cases last with
      | none => simp [nServersBisectGo] at hret
      | some q =>
          simp only [nServersBisectGo, Run.ret.injEq] at hret
          subst hret
          simp at hOK
  | succ rem ih =>
      intro i lo hi last r hlo1 hlh hA hB hret hOK
      rw [nServersBisectGo] at hret
      split at hret
      case isTrue heq =>
          cases hret
          exact ⟨lo, rfl, hlo1, hA, by rw [heq]; exact hB⟩
      case isFalse hne =>
          dsimp only at hret
          have hlt : lo < hi := lt_of_le_of_ne hlh hne
          split at hret
          case isTrue hcmp =>
              exact ih (i + 1) lo ((lo + hi) / 2) (some _) r hlo1 (by omega)
                hA (Or.inr hcmp) hret hOK
          case isFalse hcmp =>
              refine ih (i + 1) ((lo + hi) / 2 + 1) hi (some _) r (by omega)
                (by omega) (Or.inr ?_) hB hret hOK
              simpa using le_of_not_lt hcmp

/-- If the sources pre-phase brackets the target at `hiB`, then `hiB` is
at least the starting bound and evaluates at or above the target. -/
theorem nSourcesPreGo_bracket (P : ℚ) (m : ℕ) (E tol : ℚ) :
    ∀ (fuel n hi0 : ℕ) (prev : Option ℚ) (nP hiB : ℕ),
    nSourcesPreGo P m E tol fuel n hi0 prev = .bracketed nP hiB →
    hi0 ≤ hiB ∧
      P ≤ 1 / hyp2f1 m hiB ((P - 1) + (hiB : ℚ) / E) tol := by
  intro fuel
  induction fuel with
  | zero => intro n hi0 prev nP hiB h; simp [nSourcesPreGo] at h
  | succ fuel ih =>
      intro n hi0 prev nP hiB h
      cases prev with
      | some pv =>
          rw [nSourcesPreGo.eq_def] at h
          dsimp only at h
          split at h
          case isTrue hcmp =>
              injection h with h1 h2
              subst h2
              exact ⟨le_refl _, hcmp⟩
          case isFalse =>
              split at h
              case isTrue => exact absurd h (by simp)
              case isFalse =>
                  have hrec := ih (n + 1) (hi0 * 2) (some _) nP hiB h
                  exact ⟨by omega, hrec.2⟩
      | none =>
          rw [nSourcesPreGo.eq_def] at h
          dsimp only at h
          split at h
          case isTrue hcmp =>
              injection h with h1 h2
              subst h2
              exact ⟨le_refl _, hcmp⟩
          case isFalse =>
              have hrec := ih (n + 1) (hi0 * 2) (some _) nP hiB h
              exact ⟨by omega, hrec.2⟩

/-- Bracket invariant of the integer sources bisection (ceil midpoints,
one-sided narrowing): `lo` (unless it is still the untested initial bound
`n_servers`) evaluates strictly below the target, and the target is met
at `hi` or at `hi + 1`; an OK return value `v ≠ n_servers` therefore
evaluates below the target while `v + 1` does not. -/
theorem nSourcesBisectGo_inv (P : ℚ) (m : ℕ) (E tol : ℚ) (maxN : ℕ) :
    ∀ (rem i lo hi : ℕ) (last : Option ℕ) (r : Result),
    lo ≤ hi →
    (lo = m ∨ 1 / hyp2f1 m lo ((P - 1) + (lo : ℚ) / E) tol < P) →
    (P ≤ 1 / hyp2f1 m hi ((P - 1) + (hi : ℚ) / E) tol ∨
      P ≤ 1 / hyp2f1 m (hi + 1) ((P - 1) + ((hi + 1 : ℕ) : ℚ) / E) tol) →
    nSourcesBisectGo P m E tol maxN rem i lo hi last = .ret r →
    r.status = .OK →
    ∃ v : ℕ, r.value = (v : ℚ) ∧
      (v = m ∨ (1 / hyp2f1 m v ((P - 1) + (v : ℚ) / E) tol < P ∧
        P ≤ 1 / hyp2f1 m (v + 1) ((P - 1) + ((v + 1 : ℕ) : ℚ) / E)
          tol)) := by
  intro rem
  induction rem with
  | zero =>
      intro i lo hi last r _ _ _ hret hOK
      cases last with
      | none => simp [nSourcesBisectGo] at hret
      | some q =>
          simp only [nSourcesBisectGo, Run.ret.injEq] at hret
          subst hret
          simp at hOK
  | succ rem ih =>
      intro i lo hi last r hlh hA hB hret hOK
      rw [nSourcesBisectGo] at hret
      split at hret
      case isTrue heq =>
          cases hret
          refine ⟨lo, rfl, ?_⟩
          rcases hA with hAm | hAlt
          · exact Or.inl hAm
          · refine Or.inr ⟨hAlt, ?_⟩
            rcases hB with hB1 | hB2
            · rw [heq] at hAlt
              exact absurd hB1 (not_le.mpr hAlt)
            · rw [heq]
              exact hB2
      case isFalse hne =>
          dsimp only at hret
          have hlt : lo < hi := lt_of_le_of_ne hlh hne
          split at hret
          case isTrue hcmp =>
              exact ih (i + 1) ((lo + hi + 1) / 2) hi (some _) r (by omega)
                (Or.inr hcmp) hB hret hOK
          case isFalse hcmp =>
              refine ih (i + 1) lo ((lo + hi + 1) / 2 - 1) (some _) r
                (by omega) hA (Or.inr ?_) hret hOK
              rw [Nat.sub_add_cancel (by omega : 1 ≤ (lo + hi + 1) / 2)]
              exact le_of_not_lt hcmp

/-- Claim C5 (amended): if the servers solve converges with status OK to
`v`, then unless `v = 1` the code's blocking-probability evaluation at
`v - 1` servers is at or above the target (not necessarily strictly
above), and unless `v` equals the never-evaluated upper endpoint
`n_sources` the evaluation at `v` servers is strictly below the target;
the analogous maximum property holds for the sources solve with its
never-evaluated lower endpoint `n_servers`. -/
theorem claim_C5_amended :
    (∀ (P : ℚ) (N : ℕ) (E tol : ℚ) (maxN : ℕ) (r : Result), 1 ≤ N →
      nServersBisect P N E maxN tol = .ret r → r.status = .OK →
      ∃ v : ℕ, r.value = (v : ℚ) ∧ 1 ≤ v ∧
        (v = 1 ∨ P ≤ 1 / hyp2f1 (v - 1) N (P + (N : ℚ) / E - 1) tol) ∧
        (v = N ∨ 1 / hyp2f1 v N (P + (N : ℚ) / E - 1) tol < P)) ∧
    (∀ (P : ℚ) (m : ℕ) (E tol : ℚ) (maxN fuel : ℕ) (r : Result),
      nSourcesBisect P m E maxN tol fuel = .ret r → r.status = .OK →
      ∃ v : ℕ, r.value = (v : ℚ) ∧
        (v = m ∨ (1 / hyp2f1 m v ((P - 1) + (v : ℚ) / E) tol < P ∧
          P ≤ 1 / hyp2f1 m (v + 1) ((P - 1) + ((v + 1 : ℕ) : ℚ) / E)
            tol))) := by
  constructor
  · intro P N E tol maxN r hN hret hOK
    rw [nServersBisect] at hret
    exact nServersBisectGo_inv P N (P + (N : ℚ) / E - 1) tol maxN maxN 1 1
      N none r (le_refl 1) hN (Or.inl rfl) (Or.inl rfl) hret hOK
  · intro P m E tol maxN fuel r hret hOK
    simp only [nSourcesBisect] at hret
    cases hpre : nSourcesPreGo P m E tol fuel 0 (m * 2) none with
    | noFuel => rw [hpre] at hret; simp at hret
    | stalled n =>
        rw [hpre] at hret
        simp only [Run.ret.injEq] at hret
        subst hret
        simp at hOK
    | bracketed nPre hiB =>
        rw [hpre] at hret
        dsimp only at hret
        obtain ⟨hge, hbr⟩ :=
          nSourcesPreGo_bracket P m E tol fuel 0 (m * 2) none nPre hiB hpre
        exact nSourcesBisectGo_inv P m E tol maxN (maxN - nPre) (nPre + 1)
          m hiB none r (by omega) (Or.inl rfl) (Or.inl hbr) hret hOK

/-- Claim C5 counterexample: with target P = 1/2, n_sources = 2,
total_traffic = 4/3, the servers solve converges with status OK to value
m = 2, but the blocking-probability evaluation at m - 1 = 1 servers
equals P exactly — it does not strictly exceed P — and m equals
n_sources, an endpoint the solve never evaluated and which lies outside
the model's domain (n_sources > n_servers fails), so
`blocking_prob(m, N, E) ≤ P` is not established either. -/
theorem claim_C5_cex :
    nServersBisect (1 / 2) 2 (4 / 3) 3 (1 / 2 ^ 24) =
      .ret ⟨2, .OK, 2⟩ ∧
    1 / hyp2f1 1 2 (1 / 2 + ((2 : ℕ) : ℚ) / (4 / 3) - 1) (1 / 2 ^ 24) =
      1 / 2 := by
  constructor
  · norm_num [nServersBisect, nServersBisectGo, hyp2f1, hyp2f1Coefs,
      coefsFrom, hyp2f1FromCoefs, hyp2f1SumGo, abs]
  · norm_num [hyp2f1, hyp2f1Coefs, coefsFrom, hyp2f1FromCoefs,
      hyp2f1SumGo, abs]

/-- Claim C5 witness: the amended boundary properties instantiated on
concrete OK runs of the servers solve (P = 1/2, N = 2, E = 4/3, value 2)
and the sources solve (P = 9/20, m = 1, E = 1, value 3). -/
theorem claim_C5_witness :
    (∃ v : ℕ, (Result.mk 2 .OK 2).value = (v : ℚ) ∧ 1 ≤ v ∧
      (v = 1 ∨ (1 : ℚ) / 2 ≤
        1 / hyp2f1 (v - 1) 2 (1 / 2 + ((2 : ℕ) : ℚ) / (4 / 3) - 1)
          (1 / 2 ^ 24)) ∧
      (v = 2 ∨
        1 / hyp2f1 v 2 (1 / 2 + ((2 : ℕ) : ℚ) / (4 / 3) - 1)
          (1 / 2 ^ 24) < 1 / 2)) ∧
    (∃ v : ℕ, (Result.mk 5 .OK 3).value = (v : ℚ) ∧
      (v = 1 ∨ (1 / hyp2f1 1 v ((9 / 20 - 1) + (v : ℚ) / 1)
          (1 / 2 ^ 24) < 9 / 20 ∧
        (9 : ℚ) / 20 ≤
          1 / hyp2f1 1 (v + 1) ((9 / 20 - 1) + ((v + 1 : ℕ) : ℚ) / 1)
            (1 / 2 ^ 24)))) := by
  obtain ⟨hS, hN⟩ := claim_C5_amended
  constructor
  · exact hS (1 / 2) 2 (4 / 3) (1 / 2 ^ 24) 3 ⟨2, .OK, 2⟩ (by norm_num)
      (by norm_num [nServersBisect, nServersBisectGo, hyp2f1, hyp2f1Coefs,
        coefsFrom, hyp2f1FromCoefs, hyp2f1SumGo, abs]) rfl
  · exact hN (9 / 20) 1 1 (1 / 2 ^ 24) 5 3 ⟨5, .OK, 3⟩
      (by norm_num [nSourcesBisect, nSourcesPreGo, nSourcesBisectGo,
        hyp2f1, hyp2f1Coefs, coefsFrom, hyp2f1FromCoefs, hyp2f1SumGo,
        abs]) rfl

/-- If before step `k` the sources pre-phase has never bracketed nor
stalled, and its stall test first fires at step `k`, the pre-phase stops
at step `k` with the stalled outcome.  The state at entry of step `n + 1`
is: upper bound `m * 2 ^ (n + 1)`, previous value the one evaluated at
step `n`. -/
theorem nSourcesPreGo_stall (P : ℚ) (m : ℕ) (E tol : ℚ) (k : ℕ)
    (hlt : ∀ j, 1 ≤ j → j ≤ k → sourcesPreValue P m E tol j < P)
    (hstall : |sourcesPreValue P m E tol k -
        sourcesPreValue P m E tol (k - 1)| ≤
      |sourcesPreValue P m E tol k| * tol)
    (hfirst : ∀ j, 2 ≤ j → j < k →
      ¬(|sourcesPreValue P m E tol j - sourcesPreValue P m E tol (j - 1)| ≤
        |sourcesPreValue P m E tol j| * tol)) :
    ∀ (fuel n : ℕ), 1 ≤ n → n + 1 ≤ k → k ≤ n + fuel →
    nSourcesPreGo P m E tol fuel n (m * 2 ^ (n + 1))
      (some (sourcesPreValue P m E tol n)) = .stalled k := by
  intro fuel
  induction fuel with
  | zero => intro n h1 h2 h3; omega
  | succ fuel ih =>
      intro n h1 h2 h3
      rw [nSourcesPreGo.eq_def]
      dsimp only
      rw [show (1 / hyp2f1 m (m * 2 ^ (n + 1))
          ((P - 1) + ((m * 2 ^ (n + 1) : ℕ) : ℚ) / E) tol) =
        sourcesPreValue P m E tol (n + 1) from rfl]
      rw [if_neg (not_le.mpr (hlt (n + 1) (by omega) (by omega)))]
      by_cases hke : n + 1 = k
      · rw [if_pos ?stall]
        · rw [hke]
        case stall =>
          have h4 : k - 1 = n := by omega
          have h5 := hstall
          rw [h4, ← hke] at h5
          exact h5
      · rw [if_neg ?nostall]
        · have hgrow : m * 2 ^ (n + 1) * 2 = m * 2 ^ (n + 1 + 1) := by ring
          rw [hgrow]
          exact ih (n + 1) (by omega) (by omega) (by omega)
        case nostall =>
          have h6 := hfirst (n + 1) (by omega) (by omega)
          have h4 : n + 1 - 1 = n := by omega
          rw [h4] at h6
          exact h6

/-- Claim C6: if, with the target never bracketed through step `k`, the
sources pre-phase's successive values first differ by no more than `tol`
relative to the latest value at step `k ≥ 2`, then the sources solve
returns immediately with `n_iters = k`, status UNBOUNDED and value
`sys.maxsize`.  (`sourcesPreValue P m E tol j` is the value the pre-phase
evaluates at doubling step `j`, whose upper bound starts at
`n_servers * 2`.) -/
theorem claim_C6 (P : ℚ) (m : ℕ) (E tol : ℚ) (maxN fuel k : ℕ)
    (hk : 2 ≤ k) (hfuel : k ≤ fuel)
    (hlt : ∀ j, 1 ≤ j → j ≤ k → sourcesPreValue P m E tol j < P)
    (hstall : |sourcesPreValue P m E tol k -
        sourcesPreValue P m E tol (k - 1)| ≤
      |sourcesPreValue P m E tol k| * tol)
    (hfirst : ∀ j, 2 ≤ j → j < k →
      ¬(|sourcesPreValue P m E tol j - sourcesPreValue P m E tol (j - 1)| ≤
        |sourcesPreValue P m E tol j| * tol)) :
    nSourcesBisect P m E maxN tol fuel =
      .ret ⟨k, .UNBOUNDED, sysMaxsize⟩ := by
  obtain ⟨fu, rfl⟩ : ∃ fu, fuel = fu + 1 := ⟨fuel - 1, by omega⟩
  simp only [nSourcesBisect]
  rw [nSourcesPreGo.eq_def]
  dsimp only
  have hm2 : m * 2 = m * 2 ^ 1 := by rw [pow_one]
  rw [hm2]
  rw [show (1 / hyp2f1 m (m * 2 ^ 1)
      ((P - 1) + ((m * 2 ^ 1 : ℕ) : ℚ) / E) tol) =
    sourcesPreValue P m E tol 1 from rfl]
  rw [if_neg (not_le.mpr (hlt 1 (by omega) (by omega)))]
  have hrw : m * 2 ^ 1 * 2 = m * 2 ^ (1 + 1) := by ring
  rw [hrw]
  rw [nSourcesPreGo_stall P m E tol k hlt hstall hfirst fu 1 (by omega)
    (by omega) (by omega)]

/-- Claim C6 witness: with blocking_prob = 3/4, n_servers = 1,
total_traffic = 1, tol = 1/2, the pre-phase values at steps 1 and 2
(4/11 and 4/9) never reach the target and differ by no more than the
relative tolerance, so the solve returns (2, UNBOUNDED, sys.maxsize). -/
theorem claim_C6_witness :
    nSourcesBisect (3 / 4) 1 1 5 (1 / 2) 5 =
      .ret ⟨2, .UNBOUNDED, sysMaxsize⟩ := by
  refine claim_C6 (3 / 4) 1 1 (1 / 2) 5 5 2 (by norm_num) (by norm_num)
    ?_ ?_ ?_
  · intro j hj1 hj2
    interval_cases j
    · norm_num [sourcesPreValue, hyp2f1, hyp2f1Coefs, coefsFrom,
        hyp2f1FromCoefs, hyp2f1SumGo, abs]
    · norm_num [sourcesPreValue, hyp2f1, hyp2f1Coefs, coefsFrom,
        hyp2f1FromCoefs, hyp2f1SumGo, abs]
  · norm_num [sourcesPreValue, hyp2f1, hyp2f1Coefs, coefsFrom,
      hyp2f1FromCoefs, hyp2f1SumGo, abs]
  · intro j hj1 hj2
    omega
